import Mathlib

/-!
Verification of the heartbeat scheduler and notification handlers of the
`notifiers` push-notification relay (`src/schedule.rs`, `src/notifier.rs`,
`src/server.rs`, `src/openpgp.rs`).

The Rust code is shallowly embedded as follows.

* `u64::to_be_bytes` / `u64::from_be_bytes` become `toBeBytes` / `fromBeBytes`
  over `Nat`, with the reduction modulo `2 ^ 64` explicit in `toBeBytes`.
* The sled database becomes an association list `List (String × List Nat)`
  from token keys to stored byte values, with upsert (`dbInsert`), lookup
  (`dbGet`) and delete (`dbRemove`) mirroring `sled::Db::insert/get/remove`.
* `BinaryHeap<(Reverse<u64>, String)>` is a max-heap whose order pops the
  entry with the smallest timestamp first (ties broken by the larger token
  string, per the derived lexicographic `Ord` on `(Reverse<u64>, String)`).
  Distinct elements are never order-equal, so the heap's observable
  behaviour (push / pop / len) is exactly that of a priority-sorted list:
  `pushHeap` inserts in priority order and `popLoop` consumes from the head.
-/

/-- `u64::to_be_bytes`: the eight big-endian base-256 digits of `n % 2 ^ 64`. -/
def toBeBytes (n : Nat) : List Nat :=
  [n / 2 ^ 56 % 256, n / 2 ^ 48 % 256, n / 2 ^ 40 % 256, n / 2 ^ 32 % 256,
   n / 2 ^ 24 % 256, n / 2 ^ 16 % 256, n / 2 ^ 8 % 256, n % 256]

/-- `u64::from_be_bytes`: recombine big-endian base-256 digits. -/
def fromBeBytes (v : List Nat) : Nat :=
  v.foldl (fun acc b => acc * 256 + b) 0

theorem fromBeBytes_toBeBytes (n : Nat) : fromBeBytes (toBeBytes n) = n % 2 ^ 64 := by
  simp only [toBeBytes, fromBeBytes, List.foldl]
  omega

theorem toBeBytes_length (n : Nat) : (toBeBytes n).length = 8 := rfl

theorem toBeBytes_injOn {a b : Nat} (ha : a < 2 ^ 64) (hb : b < 2 ^ 64)
    (h : toBeBytes a = toBeBytes b) : a = b := by
  have := congrArg fromBeBytes h
  rwa [fromBeBytes_toBeBytes, fromBeBytes_toBeBytes, Nat.mod_eq_of_lt ha,
    Nat.mod_eq_of_lt hb] at this

/-- `sled::Db::get`: the value stored under key `k`, if any. -/
def dbGet (db : List (String × List Nat)) (k : String) : Option (List Nat) :=
  match db with
  | [] => none
  | (k', v) :: rest => if k' = k then some v else dbGet rest k

/-- `sled::Db::insert`: upsert the value stored under key `k`. -/
def dbInsert (db : List (String × List Nat)) (k : String) (v : List Nat) :
    List (String × List Nat) :=
  match db with
  | [] => [(k, v)]
  | (k', v') :: rest => if k' = k then (k, v) :: rest else (k', v') :: dbInsert rest k v

/-- `sled::Db::remove`: delete key `k`. -/
def dbRemove (db : List (String × List Nat)) (k : String) : List (String × List Nat) :=
  match db with
  | [] => []
  | (k', v') :: rest => if k' = k then dbRemove rest k else (k', v') :: dbRemove rest k

theorem dbGet_dbInsert_self (db : List (String × List Nat)) (k : String) (v : List Nat) :
    dbGet (dbInsert db k v) k = some v := by
  induction db with
  | nil => simp [dbGet, dbInsert]
  | cons e rest ih =>
    obtain ⟨k', v'⟩ := e
    by_cases h : k' = k <;> simp [dbGet, dbInsert, h, ih]

theorem dbGet_dbInsert_ne (db : List (String × List Nat)) (k k' : String) (v : List Nat)
    (h : k ≠ k') : dbGet (dbInsert db k v) k' = dbGet db k' := by
  induction db with
  | nil => simp [dbGet, dbInsert, h]
  | cons e rest ih =>
    obtain ⟨k'', v''⟩ := e
    by_cases h1 : k'' = k
    · subst h1
      simp [dbGet, dbInsert, h]
    · by_cases h2 : k'' = k' <;> simp [dbGet, dbInsert, h1, h2, ih, Ne.symm h]

theorem dbGet_dbRemove_ne (db : List (String × List Nat)) (k k' : String)
    (h : k ≠ k') : dbGet (dbRemove db k) k' = dbGet db k' := by
  induction db with
  | nil => simp [dbRemove]
  | cons e rest ih =>
    obtain ⟨k'', v''⟩ := e
    by_cases h1 : k'' = k
    · subst h1
      simp [dbGet, dbRemove, h, ih]
    · by_cases h2 : k'' = k' <;> simp [dbGet, dbRemove, h1, h2, ih, Ne.symm h]

theorem dbInsert_length_le (db : List (String × List Nat)) (k : String) (v : List Nat) :
    (dbInsert db k v).length ≤ db.length + 1 := by
  induction db with
  | nil => simp [dbInsert]
  | cons e rest ih =>
    obtain ⟨k', v'⟩ := e
    by_cases h : k' = k <;> simp [dbInsert, h] <;> omega

theorem dbRemove_length_le (db : List (String × List Nat)) (k : String) :
    (dbRemove db k).length ≤ db.length := by
  induction db with
  | nil => simp [dbRemove]
  | cons e rest ih =>
    obtain ⟨k', v'⟩ := e
    by_cases h : k' = k <;> simp [dbRemove, h] <;> omega

/-- Rust's `Ord` on `String`: lexicographic on the UTF-8 bytes, which is
lexicographic on code points. -/
def strLtAux : List Char → List Char → Bool
  | [], [] => false
  | [], _ :: _ => true
  | _ :: _, [] => false
  | c :: cs, d :: ds =>
    if c.toNat < d.toNat then true
    else if d.toNat < c.toNat then false
    else strLtAux cs ds

def strLt (s t : String) : Bool :=
  strLtAux s.data t.data

/-- The max-heap order on `(Reverse<u64>, String)`: `x` pops before `y`
iff `x` has the smaller timestamp, ties broken by the larger token. -/
def beats (x y : Nat × String) : Bool :=
  decide (x.1 < y.1) || (x.1 == y.1 && strLt y.2 x.2)

/-- `BinaryHeap::push`, on the priority-sorted list representation. -/
def pushHeap (e : Nat × String) : List (Nat × String) → List (Nat × String)
  | [] => [e]
  | x :: xs => if beats x e then x :: pushHeap e xs else e :: x :: xs

theorem pushHeap_length (e : Nat × String) (h : List (Nat × String)) :
    (pushHeap e h).length = h.length + 1 := by
  induction h with
  | nil => rfl
  | cons x xs ih => by_cases hc : beats x e <;> simp [pushHeap, hc, ih]

theorem mem_pushHeap {e e' : Nat × String} {h : List (Nat × String)} :
    e' ∈ pushHeap e h ↔ e' = e ∨ e' ∈ h := by
  induction h with
  | nil => simp [pushHeap]
  | cons x xs ih =>
    by_cases hc : beats x e <;> simp [pushHeap, hc, ih] <;> tauto

theorem countP_pushHeap (p : Nat × String → Bool) (e : Nat × String)
    (h : List (Nat × String)) :
    (pushHeap e h).countP p = h.countP p + (if p e then 1 else 0) := by
  induction h with
  | nil => simp [pushHeap, List.countP_cons]
  | cons x xs ih =>
    by_cases hc : beats x e <;> simp [pushHeap, hc, List.countP_cons, ih] <;> omega

/-- The `Schedule` state: sled database plus the in-memory heap
(`src/schedule.rs`). -/
structure Schedule where
  db : List (String × List Nat)
  heap : List (Nat × String)
deriving DecidableEq

/-- The timestamp reconstructed for a stored value in `Schedule::new`:
`value.get(..8)` succeeds iff the value has at least 8 bytes, otherwise
the timestamp is 0. -/
def loadTimestamp (v : List Nat) : Nat :=
  if 8 ≤ v.length then fromBeBytes (v.take 8) else 0

/-- `Schedule::new`: open the database and rebuild the heap by pushing
one `(timestamp, token)` entry per stored record. -/
def Schedule.new (db : List (String × List Nat)) : Schedule :=
  { db := db
    heap := db.foldl (fun h e => pushHeap (loadTimestamp e.2, e.1) h) [] }

/-- `Schedule::insert_token`: write the big-endian timestamp into the
database and push a heap entry. -/
def Schedule.insert_token (s : Schedule) (token : String) (now : Nat) : Schedule :=
  { db := dbInsert s.db token (toBeBytes now)
    heap := pushHeap (now, token) s.heap }

/-- `Schedule::insert_token_now`, with the wall clock passed explicitly. -/
def Schedule.insert_token_now (s : Schedule) (token : String) (now : Nat) : Schedule :=
  s.insert_token token now

/-- `Schedule::remove_token`: delete the token from the database only;
the heap is not scrubbed. -/
def Schedule.remove_token (s : Schedule) (token : String) : Schedule :=
  { s with db := dbRemove s.db token }

/-- `Schedule::flush`: persistence is implicit in the model. -/
def Schedule.flush (s : Schedule) : Schedule := s

/-- The loop inside `Schedule::pop`: pop heap entries until one matches
the stored bytes for its token; return it together with the remaining heap. -/
def popLoop (db : List (String × List Nat)) :
    List (Nat × String) → Option (Nat × String) × List (Nat × String)
  | [] => (none, [])
  | (ts, tok) :: rest =>
    match dbGet db tok with
    | none => popLoop db rest
    | some v => if toBeBytes ts = v then (some (ts, tok), rest) else popLoop db rest

/-- `Schedule::pop`. -/
def Schedule.pop (s : Schedule) : Option (Nat × String) × Schedule :=
  let r := popLoop s.db s.heap
  (r.1, { s with heap := r.2 })

/-- `Schedule::token_count`: the heap length. -/
def Schedule.token_count (s : Schedule) : Nat :=
  s.heap.length

example : ((Schedule.new []).insert_token "foo" 10).pop
    = (some (10, "foo"), { db := [("foo", toBeBytes 10)], heap := [] }) := by decide

example : (((((Schedule.new []).insert_token "foo" 10).insert_token "bar" 20).insert_token
    "foo" 30).pop).1 = some (20, "bar") := by decide

/-- An entry is valid iff its timestamp's big-endian bytes equal the bytes
currently stored for its token. -/
def validEntry (db : List (String × List Nat)) (e : Nat × String) : Prop :=
  dbGet db e.2 = some (toBeBytes e.1)

theorem popLoop_split (db : List (String × List Nat)) :
    ∀ h r h', popLoop db h = (r, h') →
      ∃ pre, (∀ e ∈ pre, ¬ validEntry db e) ∧
        match r with
        | some e => h = pre ++ e :: h' ∧ validEntry db e
        | none => h = pre ∧ h' = [] := by
  intro h
  induction h with
  | nil =>
    intro r h' heq
    simp only [popLoop, Prod.mk.injEq] at heq
    obtain ⟨rfl, rfl⟩ := heq
    exact ⟨[], by simp⟩
  | cons e rest ih =>
    obtain ⟨ts, tok⟩ := e
    intro r h' heq
    rcases hget : dbGet db tok with _ | v
    · simp only [popLoop, hget] at heq
      obtain ⟨pre, hpre, hrest⟩ := ih r h' heq
      refine ⟨(ts, tok) :: pre, ?_, ?_⟩
      · intro e he
        rcases List.mem_cons.mp he with rfl | he
        · simp [validEntry, hget]
        · exact hpre e he
      · rcases r with _ | e <;> simp only at hrest ⊢
        · exact ⟨by rw [hrest.1], hrest.2⟩
        · exact ⟨by rw [hrest.1]; rfl, hrest.2⟩
    · by_cases hv : toBeBytes ts = v
      · simp only [popLoop, hget, if_pos hv, Prod.mk.injEq] at heq
        obtain ⟨rfl, rfl⟩ := heq
        exact ⟨[], by simp, by simp [validEntry, hget, hv]⟩
      · simp only [popLoop, hget, if_neg hv] at heq
        obtain ⟨pre, hpre, hrest⟩ := ih r h' heq
        refine ⟨(ts, tok) :: pre, ?_, ?_⟩
        · intro e he
          rcases List.mem_cons.mp he with rfl | he
          · simp only [validEntry]
            rw [hget]
            intro hc
            exact hv (Option.some.inj hc).symm
          · exact hpre e he
        · rcases r with _ | e <;> simp only at hrest ⊢
          · exact ⟨by rw [hrest.1], hrest.2⟩
          · exact ⟨by rw [hrest.1]; rfl, hrest.2⟩

theorem popLoop_some_valid {db : List (String × List Nat)} {h h' : List (Nat × String)}
    {e : Nat × String} (heq : popLoop db h = (some e, h')) : validEntry db e := by
  obtain ⟨pre, _, hr⟩ := popLoop_split db h (some e) h' heq
  exact hr.2

theorem popLoop_some_mem {db : List (String × List Nat)} {h h' : List (Nat × String)}
    {e : Nat × String} (heq : popLoop db h = (some e, h')) : e ∈ h := by
  obtain ⟨pre, _, hr⟩ := popLoop_split db h (some e) h' heq
  rw [hr.1]
  simp

theorem popLoop_rest_subset {db : List (String × List Nat)} {h h' : List (Nat × String)}
    {r : Option (Nat × String)} (heq : popLoop db h = (r, h')) : ∀ e ∈ h', e ∈ h := by
  obtain ⟨pre, _, hr⟩ := popLoop_split db h r h' heq
  rcases r with _ | e <;> simp only at hr
  · rw [hr.2]
    simp
  · rw [hr.1]
    intro e' he'
    simp [he']

theorem popLoop_countP_le {db : List (String × List Nat)} {h h' : List (Nat × String)}
    {r : Option (Nat × String)} (heq : popLoop db h = (r, h'))
    (p : Nat × String → Bool) : h'.countP p ≤ h.countP p := by
  obtain ⟨pre, _, hr⟩ := popLoop_split db h r h' heq
  rcases r with _ | e <;> simp only at hr
  · rw [hr.2]
    simp
  · rw [hr.1]
    simp [List.countP_append, List.countP_cons]
    omega

theorem popLoop_countP_lt {db : List (String × List Nat)} {h h' : List (Nat × String)}
    {e : Nat × String} (heq : popLoop db h = (some e, h'))
    (p : Nat × String → Bool) (hp : p e = true) : h'.countP p < h.countP p := by
  obtain ⟨pre, _, hr⟩ := popLoop_split db h (some e) h' heq
  rw [hr.1]
  simp [List.countP_append, List.countP_cons, hp]
  omega

theorem pop_db_eq (s : Schedule) : ((s.pop).2).db = s.db := rfl

theorem foldl_pushHeap_length (l : List (String × List Nat)) (h0 : List (Nat × String)) :
    (l.foldl (fun h e => pushHeap (loadTimestamp e.2, e.1) h) h0).length
      = h0.length + l.length := by
  induction l generalizing h0 with
  | nil => simp
  | cons e rest ih =>
    simp only [List.foldl, ih, pushHeap_length, List.length_cons]
    omega

/-- C1: every `(ts, token)` pair returned by `Schedule::pop` has `token`
present in the persistent map with exactly the big-endian bytes of `ts`
stored under it; heap entries popped off but not returned are invalid
(absent from the map or mismatched); and pop returns `none` on an empty
heap. -/
theorem pop_returns_valid_entries (s : Schedule) :
    (s.heap = [] → (s.pop).1 = none) ∧
    (∀ ts tok, (s.pop).1 = some (ts, tok) → dbGet s.db tok = some (toBeBytes ts)) ∧
    (∃ dropped, (∀ e ∈ dropped, ¬ validEntry s.db e) ∧
      s.heap = dropped ++ (match (s.pop).1 with
        | some e => e :: ((s.pop).2).heap
        | none => ((s.pop).2).heap)) := by
  have heq : popLoop s.db s.heap = ((s.pop).1, ((s.pop).2).heap) := rfl
  refine ⟨?_, ?_, ?_⟩
  · intro h
    simp [Schedule.pop, h, popLoop]
  · intro ts tok hr
    exact popLoop_some_valid (hr ▸ heq)
  · obtain ⟨pre, hpre, hrest⟩ := popLoop_split s.db s.heap (s.pop).1 ((s.pop).2).heap heq
    refine ⟨pre, hpre, ?_⟩
    rcases hr : (s.pop).1 with _ | e
    · rw [hr] at hrest
      simp only at hrest ⊢
      rw [hrest.2, hrest.1]
      simp
    · rw [hr] at hrest
      simp only at hrest ⊢
      exact hrest.1

theorem pop_returns_valid_entries_witness :
    dbGet (Schedule.new [("a", toBeBytes 5)]).db "a" = some (toBeBytes 5) :=
  (pop_returns_valid_entries (Schedule.new [("a", toBeBytes 5)])).2.1 5 "a" (by decide)

/-- A reachable state for the C2 counterexample: one token inserted into a
fresh empty schedule. -/
def c2State : Schedule := (Schedule.new []).insert_token "foo" 10

/-- C2 counterexample: popping the only valid entry of `"foo"` leaves the
token in the map, so right after `pop()` the heap is empty while the map
still has one key — `token_count()` drops below the map size. -/
theorem count_ge_mapsize_counterexample :
    ((c2State.pop).2).token_count < ((c2State.pop).2).db.length := by decide

/-- C2 amended: `token_count() ≥ map size` holds after `new` and is
preserved by `insert_token`, `insert_token_now`, `remove_token` and
`flush`; it is not preserved by `pop`. -/
theorem count_ge_mapsize_amended :
    (∀ db : List (String × List Nat), db.length ≤ (Schedule.new db).token_count) ∧
    (∀ (s : Schedule) (t : String) (ts now : Nat), s.db.length ≤ s.token_count →
      (s.insert_token t ts).db.length ≤ (s.insert_token t ts).token_count ∧
      (s.insert_token_now t now).db.length ≤ (s.insert_token_now t now).token_count ∧
      (s.remove_token t).db.length ≤ (s.remove_token t).token_count ∧
      (s.flush).db.length ≤ (s.flush).token_count) := by
  constructor
  · intro db
    simp [Schedule.new, Schedule.token_count, foldl_pushHeap_length]
  · intro s t ts now h
    simp only [Schedule.token_count] at h
    refine ⟨?_, ?_, ?_, h⟩
    · have := dbInsert_length_le s.db t (toBeBytes ts)
      simp only [Schedule.insert_token, Schedule.token_count, pushHeap_length]
      omega
    · have := dbInsert_length_le s.db t (toBeBytes now)
      simp only [Schedule.insert_token_now, Schedule.insert_token, Schedule.token_count,
        pushHeap_length]
      omega
    · have := dbRemove_length_le s.db t
      simp only [Schedule.remove_token, Schedule.token_count]
      omega

theorem count_ge_mapsize_witness :
    ((Schedule.new []).insert_token "a" 1).db.length
      ≤ ((Schedule.new []).insert_token "a" 1).token_count :=
  (count_ge_mapsize_amended.2 (Schedule.new []) "a" 1 1 (by decide)).1

/-- The C4 scenario: empty schedule, then insert foo@10, bar@20, foo@30. -/
def c4Start : Schedule :=
  (((Schedule.new []).insert_token "foo" 10).insert_token "bar" 20).insert_token "foo" 30

def c4AfterFirst : Schedule := (c4Start.pop).2

def c4AfterSecond : Schedule := (c4AfterFirst.pop).2

def c4AfterThird : Schedule := (c4AfterSecond.pop).2

/-- C4 counterexample: the first `pop()` discards the stale `(10, foo)`
entry and returns `(20, bar)` in the same call, so `token_count()` right
after it is 1, not 2 as the claimed sequence 3, 2, 1, 0 requires. -/
theorem c4_count_counterexample :
    (c4Start.pop).1 = some (20, "bar") ∧
    c4Start.token_count = 3 ∧
    c4AfterFirst.token_count = 1 ∧
    c4AfterFirst.token_count ≠ 2 := by decide

/-- C4 amended: the three pops return `(20, bar)`, `(30, foo)`, `none`
(never `(10, foo)`), and `token_count()` is 3 before the pops and then
1, 0, 0. -/
theorem c4_scen_amended :
    c4Start.token_count = 3 ∧
    (c4Start.pop).1 = some (20, "bar") ∧
    c4AfterFirst.token_count = 1 ∧
    (c4AfterFirst.pop).1 = some (30, "foo") ∧
    c4AfterSecond.token_count = 0 ∧
    (c4AfterSecond.pop).1 = none ∧
    c4AfterThird.token_count = 0 := by decide

/-- The schedule operations performed by the HTTP handlers and the
notifier workers. -/
inductive Op where
  | insert (tok : String) (ts : Nat)
  | remove (tok : String)
  | pop
  | flush
deriving DecidableEq

/-- Whether an operation inserts or removes token `t`. -/
def Op.touchesTok : Op → String → Bool
  | .insert tok _, t => tok == t
  | .remove tok, t => tok == t
  | .pop, _ => false
  | .flush, _ => false

/-- Timestamps handed to insert are u64 values. -/
def Op.wfB : Op → Bool
  | .insert _ ts => decide (ts < 2 ^ 64)
  | _ => true

/-- Apply one operation, yielding the new state and the pop result if any. -/
def Schedule.applyOp (s : Schedule) : Op → Schedule × Option (Nat × String)
  | .insert tok ts => (s.insert_token tok ts, none)
  | .remove tok => (s.remove_token tok, none)
  | .pop => ((s.pop).2, (s.pop).1)
  | .flush => (s.flush, none)

/-- Run a sequence of operations, recording each step's pop result. -/
def execTrace (s : Schedule) : List Op → Schedule × List (Option (Nat × String))
  | [] => (s, [])
  | op :: rest =>
    let p := s.applyOp op
    let q := execTrace p.1 rest
    (q.1, p.2 :: q.2)

/-- All heap timestamps are u64 values (true of every state the Rust
program can build). -/
def HeapWF (s : Schedule) : Prop := ∀ e ∈ s.heap, e.1 < 2 ^ 64

/-- The number of recorded pop results that returned token `t` with a
timestamp other than `b`. -/
def badPops (t : String) (b : Nat) (rs : List (Option (Nat × String))) : Nat :=
  rs.countP (fun r => match r with
    | some e => e.2 == t && !(e.1 == b)
    | none => false)

/-- The number of recorded pop results that returned token `t`. -/
def popsOf (t : String) (rs : List (Option (Nat × String))) : Nat :=
  rs.countP (fun r => match r with
    | some e => e.2 == t
    | none => false)

/-- The number of inserts of token `t` in an operation sequence. -/
def insertsOf (t : String) (ops : List Op) : Nat :=
  ops.countP (fun op => match op with
    | .insert tok _ => tok == t
    | _ => false)

/-- The number of heap entries carrying token `t`. -/
def tokHits (t : String) (h : List (Nat × String)) : Nat :=
  h.countP (fun e => e.2 == t)

theorem trace_no_bad_pops (t : String) (b : Nat) (hb : b < 2 ^ 64) :
    ∀ (ops : List Op) (s : Schedule),
      dbGet s.db t = some (toBeBytes b) → HeapWF s →
      (∀ op ∈ ops, op.wfB = true ∧ op.touchesTok t = false) →
      badPops t b (execTrace s ops).2 = 0 := by
  intro ops
  induction ops with
  | nil =>
    intro s _ _ _
    simp [badPops, execTrace]
  | cons op rest ih =>
    intro s hdb hwf hops
    have hop := hops op (List.mem_cons_self op rest)
    have hrest := fun op' h' => hops op' (List.mem_cons_of_mem op h')
    cases op with
    | insert tok ts =>
      have htok : tok ≠ t := by
        simpa [Op.touchesTok] using hop.2
      have hts : ts < 2 ^ 64 := by
        simpa [Op.wfB] using hop.1
      have := ih (s.insert_token tok ts) ?_ ?_ hrest
      · simpa [badPops, execTrace, Schedule.applyOp, List.countP_cons, -List.countP_eq_zero]
          using this
      · simpa [Schedule.insert_token, dbGet_dbInsert_ne _ _ _ _ htok] using hdb
      · intro e he
        rcases mem_pushHeap.mp he with rfl | he
        · exact hts
        · exact hwf e he
    | remove tok =>
      have htok : tok ≠ t := by
        simpa [Op.touchesTok] using hop.2
      have := ih (s.remove_token tok) ?_ hwf hrest
      · simpa [badPops, execTrace, Schedule.applyOp, List.countP_cons, -List.countP_eq_zero]
          using this
      · simpa [Schedule.remove_token, dbGet_dbRemove_ne _ _ _ htok] using hdb
    | pop =>
      have heq : popLoop s.db s.heap = ((s.pop).1, ((s.pop).2).heap) := rfl
      have htail := ih (s.pop).2 hdb ?_ hrest
      · have hhead : (fun r => match r with
            | some e => e.2 == t && !(e.1 == b)
            | none => false) ((s.pop).1) = false := by
          rcases hr : (s.pop).1 with _ | e
          · rfl
          · obtain ⟨ts', tok'⟩ := e
            by_cases ht : tok' = t
            · subst ht
              have hvalid := popLoop_some_valid (hr ▸ heq)
              simp only [validEntry] at hvalid
              rw [hdb] at hvalid
              have hmem := popLoop_some_mem (hr ▸ heq)
              have hts' : ts' < 2 ^ 64 := hwf _ hmem
              have : ts' = b := toBeBytes_injOn hts' hb (Option.some.inj hvalid).symm
              simp [this]
            · simp [ht]
        simp only [badPops, execTrace, Schedule.applyOp, List.countP_cons, hhead,
          if_false] at htail ⊢
        simpa [badPops] using htail
      · intro e he
        exact hwf e (popLoop_rest_subset heq e he)
    | flush =>
      have := ih (s.flush) hdb hwf hrest
      simpa [badPops, execTrace, Schedule.applyOp, List.countP_cons, -List.countP_eq_zero]
        using this

/-- C3: after `insert_token(t, a)` then `insert_token(t, b)` with `a < b`,
any later sequence of operations that never inserts or removes `t` has no
pop returning `t` with a timestamp other than `b` — in particular the first
pop returning `t` returns `b`, and the stale `(a, t)` entry is discarded
rather than returned. -/
theorem reinserted_token_pops_new_timestamp (s : Schedule) (ops : List Op)
    (t : String) (a b : Nat) (hab : a < b) (hb : b < 2 ^ 64) (hwf : HeapWF s)
    (hops : ∀ op ∈ ops, op.wfB = true ∧ op.touchesTok t = false) :
    badPops t b (execTrace ((s.insert_token t a).insert_token t b) ops).2 = 0 := by
  apply trace_no_bad_pops t b hb ops _ _ _ hops
  · show dbGet (dbInsert (dbInsert s.db t (toBeBytes a)) t (toBeBytes b)) t
      = some (toBeBytes b)
    exact dbGet_dbInsert_self ..
  · intro e he
    simp only [Schedule.insert_token] at he
    rcases mem_pushHeap.mp he with rfl | he
    · exact hb
    · rcases mem_pushHeap.mp he with rfl | he
      · exact lt_trans hab hb
      · exact hwf e he

theorem reinserted_token_pops_new_timestamp_witness :
    (1 < 2 ∧ 2 < 2 ^ 64) ∧
      badPops "t" 2
        (execTrace (((Schedule.new []).insert_token "t" 1).insert_token "t" 2) [Op.pop]).2
        = 0 :=
  ⟨⟨by decide, by decide⟩,
    reinserted_token_pops_new_timestamp (Schedule.new []) [Op.pop] "t" 1 2
      (by decide) (by decide) (by intro e he; simp [Schedule.new] at he)
      (by intro op hop; simp at hop; subst hop; exact ⟨rfl, rfl⟩)⟩

/-- C7 counterexample: two inserts of the same token with the same
timestamp create two valid heap entries, so two consecutive pops both
return `("t", 5)` although no insert of `"t"` happens after the first pop
(both inserts precede both pops, and the tail of the sequence after the
first pop contains no insert at all). -/
theorem same_token_double_pop_counterexample :
    (execTrace (Schedule.new [])
        [Op.insert "t" 5, Op.insert "t" 5, Op.pop, Op.pop]).2
      = [none, none, some (5, "t"), some (5, "t")] ∧
    insertsOf "t" [Op.pop, Op.pop] = 0 := by decide

/-- C7 amended: the ordering guarantee fails for duplicate equal-timestamp
inserts, but the count bound holds: in any operation sequence, the number
of pops returning `t` never exceeds the number of inserts of `t` plus the
number of heap entries for `t` in the starting state (zero for a fresh
empty schedule). -/
theorem pops_bounded_by_inserts (ops : List Op) :
    ∀ (s : Schedule) (t : String),
      popsOf t (execTrace s ops).2 ≤ insertsOf t ops + tokHits t s.heap := by
  induction ops with
  | nil =>
    intro s t
    simp [popsOf, insertsOf, execTrace]
  | cons op rest ih =>
    intro s t
    cases op with
    | insert tok ts =>
      have := ih (s.insert_token tok ts) t
      simp only [popsOf, insertsOf, tokHits, execTrace, Schedule.applyOp,
        List.countP_cons, Schedule.insert_token, countP_pushHeap] at this ⊢
      by_cases htok : (tok == t) = true <;> simp [htok] at this ⊢ <;> omega
    | remove tok =>
      have := ih (s.remove_token tok) t
      simp only [popsOf, insertsOf, tokHits, execTrace, Schedule.applyOp,
        List.countP_cons, Schedule.remove_token] at this ⊢
      simpa using this
    | pop =>
      have heq : popLoop s.db s.heap = ((s.pop).1, ((s.pop).2).heap) := rfl
      have htail := ih (s.pop).2 t
      rcases hr : (s.pop).1 with _ | e
      · have hle := popLoop_countP_le (hr ▸ heq) (fun e => e.2 == t)
        simp only [popsOf, insertsOf, tokHits, execTrace, Schedule.applyOp,
          List.countP_cons, hr] at htail ⊢
        simp only [tokHits] at hle
        omega
      · by_cases ht : (e.2 == t) = true
        · have hlt := popLoop_countP_lt (hr ▸ heq) (fun e => e.2 == t) ht
          simp only [popsOf, insertsOf, tokHits, execTrace, Schedule.applyOp,
            List.countP_cons, hr, ht, if_true, eq_self_iff_true] at htail ⊢
          omega
        · have hle := popLoop_countP_le (hr ▸ heq) (fun e => e.2 == t)
          simp only [popsOf, insertsOf, tokHits, execTrace, Schedule.applyOp,
            List.countP_cons, hr, ht] at htail ⊢
          omega
    | flush =>
      have := ih (s.flush) t
      simp only [popsOf, insertsOf, tokHits, execTrace, Schedule.applyOp,
        List.countP_cons, Schedule.flush] at this ⊢
      simpa using this

/-- The outcome of `a2::Client::send` as seen by the callers: a well-formed
response with its HTTP status code, an `a2::Error::ResponseError` with the
status code it carries, or any other (transport) error. -/
inductive ApnsSendResult where
  | response (code : Nat)
  | responseError (code : Nat)
  | transportError
deriving DecidableEq

/-- Whether `wakeup` in `src/notifier.rs` returns `Ok` or bails with an
error (which makes the notifier loop log and sleep 60 seconds). -/
inductive WakeupResult where
  | ok
  | err
deriving DecidableEq

/-- The send-response handling of `wakeup` (`src/notifier.rs`), for an APNS
token already in the schedule: on a 200 response reinsert the token at
`now`; on any other well-formed response bail with an error; on
`ResponseError` remove the token; on a transport error reinsert at `now`. -/
def wakeup (s : Schedule) (tok : String) (now : Nat) (r : ApnsSendResult) :
    Schedule × WakeupResult :=
  match r with
  | .response code =>
    if code = 200 then (s.insert_token_now tok now, .ok) else (s, .err)
  | .responseError _ => (s.remove_token tok, .ok)
  | .transportError => (s.insert_token_now tok now, .ok)

/-- The send-response handling of `notify_apns` (`src/server.rs`): any
well-formed response yields HTTP 200 to the caller (non-200 codes are only
logged); `ResponseError` with code 410 removes the token and yields 410,
other `ResponseError`s yield 500; a transport error yields 500. -/
def notify_apns (s : Schedule) (tok : String) (r : ApnsSendResult) :
    Schedule × Nat :=
  match r with
  | .response _ => (s, 200)
  | .responseError code =>
    if code = 410 then (s.remove_token tok, 410) else (s, 500)
  | .transportError => (s, 500)

/-- C5 counterexample: on a well-formed 503 APNS response the notifier
loop's `wakeup` bails without touching the schedule — the token is not
reinserted with `insert_now` — and the `/notify` handler reports 200, not
500, to its caller. -/
theorem apns_non200_counterexample :
    (wakeup (Schedule.new []) "AAA" 7 (.response 503)).2 = .err ∧
    ((wakeup (Schedule.new []) "AAA" 7 (.response 503)).1).db = [] ∧
    (notify_apns (Schedule.new []) "AAA" (.response 503)).2 = 200 ∧
    (notify_apns (Schedule.new []) "AAA" (.response 503)).2 ≠ 500 := by decide

/-- C5 amended: on a well-formed non-200 APNS response the notifier loop's
`wakeup` returns an error with the schedule unchanged (the loop then logs
and sleeps; no `insert_now`, no remove), and the `/notify` handler leaves
the schedule unchanged and reports 200 to its caller. -/
theorem apns_non200_amended (s : Schedule) (tok : String) (now code : Nat)
    (h : code ≠ 200) :
    wakeup s tok now (.response code) = (s, .err) ∧
    notify_apns s tok (.response code) = (s, 200) := by
  constructor
  · simp [wakeup, h]
  · simp [notify_apns]

theorem apns_non200_amended_witness :
    (503 ≠ 200) ∧
      wakeup (Schedule.new [("x", toBeBytes 3)]) "x" 9 (.response 503)
        = (Schedule.new [("x", toBeBytes 3)], .err) :=
  ⟨by decide,
    (apns_non200_amended (Schedule.new [("x", toBeBytes 3)]) "x" 9 503 (by decide)).1⟩

/-- The delay computation at the top of the notifier loop
(`src/notifier.rs`, `start`): interpret the popped timestamp as a Unix
instant, clamp it to `now` from above (`std::cmp::min`), add the interval,
and sleep for the saturating difference to `now`. -/
def notifierDelay (ts now interval : Nat) : Nat :=
  min ts now + interval - now

/-- C6 counterexample: a very old token (timestamp 0 at `now = 1000` with a
20-second interval) sleeps 0 seconds — it wakes immediately, not one
interval from now as claimed. -/
theorem old_token_delay_counterexample :
    notifierDelay 0 1000 20 = 0 ∧ notifierDelay 0 1000 20 ≠ 20 := by decide

/-- C6 amended: the sleep equals `max(0, min(ts, now) + interval − now)`;
a token whose timestamp is in the future is clamped to `now` and wakes one
interval from now, but a token overdue by at least one interval wakes
immediately (zero sleep). -/
theorem notifier_delay_amended :
    (∀ ts now interval : Nat,
      notifierDelay ts now interval
        = ((min ts now : Int) + interval - now).toNat) ∧
    (∀ ts now interval : Nat, now ≤ ts →
      notifierDelay ts now interval = interval) ∧
    (∀ ts now interval : Nat, ts + interval ≤ now →
      notifierDelay ts now interval = 0) := by
  refine ⟨?_, ?_, ?_⟩ <;> intro ts now interval
  · simp only [notifierDelay]
    omega
  · intro h
    simp only [notifierDelay]
    omega
  · intro h
    simp only [notifierDelay]
    omega

theorem notifier_delay_amended_witness :
    (3 ≤ 5) ∧ notifierDelay 5 3 7 = 7 :=
  ⟨by decide, notifier_delay_amended.2.1 5 3 7 (by decide)⟩

/-- `char::is_ascii_alphanumeric`. -/
def isAsciiAlphanumeric (c : Char) : Bool :=
  (decide ('A' ≤ c) && decide (c ≤ 'Z')) ||
  (decide ('a' ≤ c) && decide (c ≤ 'z')) ||
  (decide ('0' ≤ c) && decide (c ≤ '9'))

/-- The token character check shared by `notify_ubports` and `notify_fcm`
(`src/server.rs`): `token.chars().all(...)`, which is vacuously true for
the empty token. -/
def token_chars_ok (token : String) : Bool :=
  token.data.all (fun c => isAsciiAlphanumeric c || c == '_' || c == ':' || c == '-')

/-- An upstream HTTP call as seen by the handler: a response with a status
code, or a send (transport) error that propagates as an `Err`. -/
inductive UpstreamResult where
  | status (code : Nat)
  | sendError
deriving DecidableEq

/-- `notify_ubports` (`src/server.rs`): returns the HTTP status reported to
the caller (`none` when a send error propagates) and whether the upstream
request was made. `is_client_error` is 400–499, `is_server_error` 500–599. -/
def notify_ubports (token : String) (up : UpstreamResult) : Option Nat × Bool :=
  if !token_chars_ok token then (some 410, false)
  else
    match up with
    | .sendError => (none, true)
    | .status code =>
      if 400 ≤ code ∧ code ≤ 499 then (some 410, true)
      else if 500 ≤ code ∧ code ≤ 599 then (some 500, true)
      else (some 200, true)

/-- `notify_fcm` (`src/server.rs`): as `notify_ubports`, but first returns
500 without any check when the FCM API key is unavailable. -/
def notify_fcm (fcm_api_key : Option String) (token : String) (up : UpstreamResult) :
    Option Nat × Bool :=
  match fcm_api_key with
  | none => (some 500, false)
  | some _ =>
    if !token_chars_ok token then (some 410, false)
    else
      match up with
      | .sendError => (none, true)
      | .status code =>
        if 400 ≤ code ∧ code ≤ 499 then (some 410, true)
        else if 500 ≤ code ∧ code ≤ 599 then (some 500, true)
        else (some 200, true)

/-- C8 counterexample: the empty token does not match `[A-Za-z0-9_:-]+`,
yet `chars().all` is vacuously true for it, so the UBports handler calls
upstream and returns its mapped status (here 200) instead of 410. -/
theorem empty_token_counterexample :
    token_chars_ok "" = true ∧
    notify_ubports "" (.status 200) = (some 200, true) ∧
    notify_ubports "" (.status 200) ≠ (some 410, false) := by decide

/-- C8 amended: a token containing any character outside ASCII
alphanumerics, `_`, `:`, `-` is answered with 410 Gone and no upstream
request on both the UBports and the FCM path (FCM: provided the API key is
present); the empty token instead passes the vacuous check and is sent
upstream. -/
theorem bad_token_gives_410 (token : String) (up : UpstreamResult) (key : String)
    (h : token_chars_ok token = false) :
    notify_ubports token up = (some 410, false) ∧
    notify_fcm (some key) token up = (some 410, false) := by
  constructor
  · simp [notify_ubports, h]
  · simp [notify_fcm, h]

theorem bad_token_gives_410_witness :
    token_chars_ok "bad token!" = false ∧
    notify_ubports "bad token!" (.status 200) = (some 410, false) :=
  ⟨by decide,
    (bad_token_gives_410 "bad token!" (.status 200) "key" (by decide)).1⟩

/-- A key as yielded by `pgp::composed::signed_key::from_armor_many`:
either a secret key or not (`is_secret`); `into_secret` is the identity on
the model. -/
structure PgpKey where
  is_secret : Bool
deriving DecidableEq

/-- The decryptor keyring (`src/openpgp.rs`). -/
structure PgpDecryptor where
  keyring : List PgpKey
deriving DecidableEq

/-- `PgpDecryptor::new` (`src/openpgp.rs`), parameterised by the outcome of
the external armor parse: a top-level parse error propagates; otherwise the
per-key results are flattened (`Err` entries skipped), non-secret keys are
skipped, and the remaining secret keys form the keyring. -/
def PgpDecryptor.new (armorParsed : Except String (List (Except String PgpKey))) :
    Except String PgpDecryptor :=
  match armorParsed with
  | .error e => .error e
  | .ok items =>
    .ok ⟨(items.filterMap (fun it => match it with
        | .ok k => some k
        | .error _ => none)).filter (fun k => k.is_secret)⟩

/-- C9 counterexample: an armored input that parses and yields one
non-secret key (hence zero secret keys) still makes `PgpDecryptor::new`
succeed, with an empty keyring — it does not return an error. -/
theorem pgp_new_counterexample :
    PgpDecryptor.new (.ok [Except.ok ⟨false⟩]) = .ok ⟨[]⟩ ∧
    (PgpDecryptor.new (.ok [Except.ok ⟨false⟩])).isOk = true := ⟨rfl, rfl⟩

/-- C9 amended: `PgpDecryptor::new` returns an error exactly when the
top-level armor parse fails; non-secret keys and keys that fail to parse
individually are silently skipped, and the constructor succeeds whenever
the armor parses — even with zero secret keys — keeping precisely the
parsed secret keys. -/
theorem pgp_new_amended :
    (∀ e, PgpDecryptor.new (.error e) = .error e) ∧
    (∀ items, ∃ d, PgpDecryptor.new (.ok items) = .ok d ∧
      ∀ k, k ∈ d.keyring ↔ (Except.ok k ∈ items ∧ k.is_secret = true)) := by
  constructor
  · intro e
    rfl
  · intro items
    refine ⟨_, rfl, ?_⟩
    intro k
    simp only [List.mem_filter, List.mem_filterMap]
    constructor
    · rintro ⟨⟨it, hit, hk⟩, hs⟩
      rcases it with e | k'
      · simp at hk
      · simp only [Option.some.injEq] at hk
        subst hk
        exact ⟨hit, hs⟩
    · rintro ⟨hit, hs⟩
      exact ⟨⟨Except.ok k, hit, rfl⟩, hs⟩

theorem pgp_new_amended_witness :
    PgpDecryptor.new (.error "bad armor") = .error "bad armor" :=
  pgp_new_amended.1 "bad armor"

theorem mem_foldl_pushHeap (l : List (String × List Nat)) :
    ∀ (h0 : List (Nat × String)) (x : Nat × String),
      (x ∈ h0 ∨ ∃ e ∈ l, (loadTimestamp e.2, e.1) = x) →
      x ∈ l.foldl (fun h e => pushHeap (loadTimestamp e.2, e.1) h) h0 := by
  induction l with
  | nil =>
    intro h0 x hx
    rcases hx with hx | ⟨e, he, _⟩
    · simpa using hx
    · simp at he
  | cons e rest ih =>
    intro h0 x hx
    simp only [List.foldl]
    rcases hx with hx | ⟨e', he', hfe⟩
    · exact ih _ x (Or.inl (mem_pushHeap.mpr (Or.inr hx)))
    · rcases List.mem_cons.mp he' with rfl | he'
      · exact ih _ x (Or.inl (mem_pushHeap.mpr (Or.inl hfe.symm)))
      · exact ih _ x (Or.inr ⟨e', he', hfe⟩)

/-- C10: a stored value whose length is not 8 (producible only by an
external writer) gives rise at load time to a heap entry with timestamp 0
(value shorter than 8 bytes) or the first 8 bytes (longer); as long as the
map still holds that value, `pop()` never returns the token — the
stored-bytes equality can never hold against a non-8-byte value — and the
popped-over state keeps the map unchanged, so the token stays in the map. -/
theorem malformed_value_never_popped (db : List (String × List Nat)) (tok : String)
    (v : List Nat) (hmem : (tok, v) ∈ db) (hlen : v.length ≠ 8) :
    ((if 8 ≤ v.length then fromBeBytes (v.take 8) else 0, tok) ∈ (Schedule.new db).heap) ∧
    (∀ s : Schedule, dbGet s.db tok = some v →
      (∀ ts, (s.pop).1 ≠ some (ts, tok)) ∧ ((s.pop).2).db = s.db) := by
  constructor
  · exact mem_foldl_pushHeap db [] (loadTimestamp v, tok) (Or.inr ⟨(tok, v), hmem, rfl⟩)
  · intro s hdb
    refine ⟨?_, rfl⟩
    intro ts hr
    have heq : popLoop s.db s.heap = ((s.pop).1, ((s.pop).2).heap) := rfl
    have hvalid := popLoop_some_valid (hr ▸ heq)
    simp only [validEntry] at hvalid
    rw [hdb] at hvalid
    have hv : v = toBeBytes ts := Option.some.inj hvalid
    rw [hv, toBeBytes_length] at hlen
    exact hlen rfl

theorem malformed_value_never_popped_witness :
    ((0, "x") ∈ (Schedule.new [("x", [1, 2, 3])]).heap) ∧
    (((Schedule.new [("x", [1, 2, 3])]).pop).2).db = [("x", [1, 2, 3])] := by
  have h := malformed_value_never_popped [("x", [1, 2, 3])] "x" [1, 2, 3]
    (by decide) (by decide)
  exact ⟨h.1, (h.2 (Schedule.new [("x", [1, 2, 3])]) (by decide)).2⟩
